import Mathlib

/-!
Shallow embedding of the NFT marketplace pallet (`pallets/template/src/lib.rs`).

Storage items become fields of `MarketState`; `StorageMap`/`StorageValue`
entries with `OptionQuery` become `Option`-valued functions / fields.
Dispatchables are total functions `MarketState → ... → Except DispatchErr
MarketState`; a Rust `.unwrap()` on a missing value becomes the explicit
outcome `DispatchErr.runtimePanic`.  Machine integers are `Nat` with the
source's `checked_add` modelled exactly and its unchecked `+ 1` / `- 1`
modelled as wrapping arithmetic modulo `2 ^ 64` / `2 ^ 128` (release-profile
Rust semantics; with overflow checks the same inputs would panic instead of
wrapping — in every theorem below only the fact that no clean error is
returned matters).  A failed extrinsic leaves storage untouched
(`runExtrinsic` / `commit`), matching substrate rollback-on-error dispatch
semantics and the `#[transactional]` attribute on `buy`.
-/

abbrev AccountId := Nat
abbrev TokenID := Nat

def U64MOD : Nat := 2 ^ 64
def U128MOD : Nat := 2 ^ 128

/-- The `Order` struct of the pallet: a token id and an asking price. -/
structure Order where
  token_id : TokenID
  sell_price : Nat
  deriving DecidableEq, Repr

/-- The pallet's storage: `NextTokenId`, `TokenIdToOwner`, `NumberOfSellOrders`,
`SellOrders`, `IsTokenOnSale`, `OwnerToNumberOfNFTs`, `OwnerToTokenIds`,
plus the balances of the external `Currency` collaborator. -/
structure MarketState where
  nextTokenId : Option Nat
  tokenIdToOwner : TokenID → Option (AccountId × Nat)
  numberOfSellOrders : Option Nat
  sellOrders : Nat → Option Order
  isTokenOnSale : TokenID → Option Nat
  ownerToNumberOfNFTs : AccountId → Option Nat
  ownerToTokenIds : AccountId → Nat → Option TokenID
  balances : AccountId → Nat

/-- Errors of the pallet's `Error` enum, the currency collaborator's failures,
and a marker for a Rust panic (`unwrap` of `None`). -/
inductive PalletError
  | StorageOverflow
  | TokenIdAlreadyMinted
  | InvalidTokenID
  | NotTokenOwner
  | TokenAlreadyOnSale
  | TokenNotOnSale
  | SellOrderNotFound
  | NoSellOrdersFound
  | NotEnoughBalance
  deriving DecidableEq, Repr

inductive DispatchErr
  | pallet (e : PalletError)
  | currencyInsufficientBalance
  | currencyKeepAlive
  | runtimePanic
  deriving DecidableEq, Repr

/-- Point update of an `OptionQuery` storage map (`StorageMap::insert`). -/
def insertFn {α β : Type} [DecidableEq α] (f : α → Option β) (k : α) (v : β) : α → Option β :=
  fun x => if x = k then some v else f x

/-- Point removal from an `OptionQuery` storage map (`StorageMap::remove`). -/
def removeFn {α β : Type} [DecidableEq α] (f : α → Option β) (k : α) : α → Option β :=
  fun x => if x = k then none else f x

/-- Point update of the `OwnerToTokenIds` double map. -/
def insert2 (f : AccountId → Nat → Option TokenID) (a : AccountId) (p : Nat) (v : TokenID) :
    AccountId → Nat → Option TokenID :=
  fun x q => if x = a ∧ q = p then some v else f x q

/-- Point removal from the `OwnerToTokenIds` double map. -/
def remove2 (f : AccountId → Nat → Option TokenID) (a : AccountId) (p : Nat) :
    AccountId → Nat → Option TokenID :=
  fun x q => if x = a ∧ q = p then none else f x q

/-- Rust `checked_add` on an unsigned integer with the given modulus. -/
def checkedAdd (modulus a b : Nat) : Option Nat :=
  if a + b < modulus then some (a + b) else none

/-- Unchecked Rust `+` on an unsigned integer, wrapping at the modulus. -/
def wrapAdd (modulus a b : Nat) : Nat := (a + b) % modulus

/-- Unchecked Rust `- 1` on an unsigned integer, wrapping at the modulus. -/
def wrapSub1 (modulus n : Nat) : Nat := if n = 0 then modulus - 1 else n - 1

/-- Modelled from the spec: the existential deposit of the external balance
ledger (out of scope in `src/`, consumed as a collaborator). -/
def existentialDeposit : Nat := 1

/-- Modelled from the spec: the external `Currency::transfer` collaborator with
`ExistenceRequirement::KeepAlive` — a transfer to self or of zero is a no-op,
otherwise it fails if the payer's balance is below the amount, or if the payer
would drop below the existential deposit; it has no balance effect on failure
("debit payer, credit payee by amount N, fails if payer balance < N, leaves no
balance effect on failure"). -/
def currencyTransfer (bal : AccountId → Nat) (src dst : AccountId) (amt : Nat) :
    Except DispatchErr (AccountId → Nat) :=
  if src = dst ∨ amt = 0 then .ok bal
  else if bal src < amt then .error .currencyInsufficientBalance
  else if bal src - amt < existentialDeposit then .error .currencyKeepAlive
  else .ok (fun a => if a = dst then bal dst + amt else if a = src then bal src - amt else bal a)

/-- The `mint` dispatchable (`lib.rs` lines 106-129): reads and bumps
`NextTokenId` with `checked_add`, bumps the owner's count with an unchecked
`+ 1`, records the ownership tuple and appends to the owner's token array. -/
def mint (s : MarketState) (owner : AccountId) : Except DispatchErr MarketState :=
  match checkedAdd U64MOD (s.nextTokenId.getD 0) 1 with
  | none => .error (.pallet .StorageOverflow)
  | some next =>
    .ok { s with
      nextTokenId := some next,
      ownerToNumberOfNFTs := insertFn s.ownerToNumberOfNFTs owner
        (wrapAdd U64MOD ((s.ownerToNumberOfNFTs owner).getD 0) 1),
      tokenIdToOwner := insertFn s.tokenIdToOwner (s.nextTokenId.getD 0)
        (owner, (s.ownerToNumberOfNFTs owner).getD 0),
      ownerToTokenIds := insert2 s.ownerToTokenIds owner
        ((s.ownerToNumberOfNFTs owner).getD 0) (s.nextTokenId.getD 0) }

/-- The `sell` dispatchable (`lib.rs` lines 133-167). -/
def sell (s : MarketState) (who : AccountId) (tid : TokenID) (price : Nat) :
    Except DispatchErr MarketState :=
  match s.tokenIdToOwner tid with
  | none => .error (.pallet .InvalidTokenID)
  | some (token_owner, _) =>
    if who = token_owner then
      if (s.isTokenOnSale tid).isSome then .error (.pallet .TokenAlreadyOnSale)
      else
        match checkedAdd U128MOD (s.numberOfSellOrders.getD 0) 1 with
        | none => .error (.pallet .StorageOverflow)
        | some c1 =>
          .ok { s with
            numberOfSellOrders := some c1,
            sellOrders := insertFn s.sellOrders (s.numberOfSellOrders.getD 0) ⟨tid, price⟩,
            isTokenOnSale := insertFn s.isTokenOnSale tid (s.numberOfSellOrders.getD 0) }
    else .error (.pallet .NotTokenOwner)

/-- The internal `destroy_sell_order` helper (`lib.rs` lines 249-277):
swap-delete on the order book.  The source `.unwrap()`s the order at `index`
and the order counter (panic when missing), computes `order_count - 1` with an
unchecked subtraction, and only the lookup of the order at the *last* position
yields a clean `SellOrderNotFound`. -/
def destroy_sell_order (s : MarketState) (index : Nat) : Except DispatchErr MarketState :=
  match s.sellOrders index with
  | none => .error .runtimePanic
  | some ord =>
    match s.numberOfSellOrders with
    | none => .error .runtimePanic
    | some c =>
      if index = wrapSub1 U128MOD c then
        .ok { s with
          isTokenOnSale := removeFn s.isTokenOnSale ord.token_id,
          sellOrders := removeFn s.sellOrders (wrapSub1 U128MOD c),
          numberOfSellOrders := some (wrapSub1 U128MOD c) }
      else
        match s.sellOrders (wrapSub1 U128MOD c) with
        | none => .error (.pallet .SellOrderNotFound)
        | some lastOrd =>
          .ok { s with
            sellOrders := removeFn (insertFn s.sellOrders index lastOrd) (wrapSub1 U128MOD c),
            isTokenOnSale :=
              removeFn (insertFn s.isTokenOnSale lastOrd.token_id index) ord.token_id,
            numberOfSellOrders := some (wrapSub1 U128MOD c) }

/-- The `cancel_order` dispatchable (`lib.rs` lines 171-194). -/
def cancel_order (s : MarketState) (who : AccountId) (tid : TokenID) :
    Except DispatchErr MarketState :=
  match s.tokenIdToOwner tid with
  | none => .error (.pallet .InvalidTokenID)
  | some (token_owner, _) =>
    if who = token_owner then
      match s.isTokenOnSale tid with
      | none => .error (.pallet .TokenNotOnSale)
      | some idx => destroy_sell_order s idx
    else .error (.pallet .NotTokenOwner)

/-- The seller-side relocation step of `buy` (`lib.rs` lines 224-227): if the
sold token was not the last in the seller's array, move the last token id into
the freed slot.  The source does not touch `TokenIdToOwner` here. -/
def relocateSeller (s : MarketState) (seller : AccountId) (idx last : Nat) :
    Except DispatchErr MarketState :=
  if idx = last then .ok s
  else
    match s.ownerToTokenIds seller last with
    | none => .error .runtimePanic
    | some last_nft =>
      .ok { s with ownerToTokenIds := insert2 s.ownerToTokenIds seller idx last_nft }

/-- The `buy` dispatchable (`lib.rs` lines 198-244), `#[transactional]`:
resolve the sale, the owner record and the order (panicking `.unwrap()`s),
check the buyer's balance, transfer, destroy the order, swap-delete the token
out of the seller's array, and append it to the buyer's array. -/
def buy (s : MarketState) (buyer : AccountId) (tid : TokenID) : Except DispatchErr MarketState :=
  match s.isTokenOnSale tid with
  | none => .error (.pallet .TokenNotOnSale)
  | some sell_id =>
    match s.tokenIdToOwner tid with
    | none => .error .runtimePanic
    | some (seller, idx) =>
      match s.sellOrders sell_id with
      | none => .error .runtimePanic
      | some ord =>
        if s.balances buyer < ord.sell_price then .error (.pallet .NotEnoughBalance)
        else
          match currencyTransfer s.balances buyer seller ord.sell_price with
          | .error e => .error e
          | .ok bal2 =>
            match destroy_sell_order { s with balances := bal2 } sell_id with
            | .error e => .error e
            | .ok s1 =>
              match s1.ownerToNumberOfNFTs seller with
              | none => .error .runtimePanic
              | some scnt =>
                match relocateSeller
                    { s1 with ownerToNumberOfNFTs :=
                        insertFn s1.ownerToNumberOfNFTs seller (wrapSub1 U64MOD scnt) }
                    seller idx (wrapSub1 U64MOD scnt) with
                | .error e => .error e
                | .ok s3 =>
                  let s4 := { s3 with
                    ownerToTokenIds := remove2 s3.ownerToTokenIds seller (wrapSub1 U64MOD scnt) }
                  let bcnt := (s4.ownerToNumberOfNFTs buyer).getD 0
                  match checkedAdd U64MOD bcnt 1 with
                  | none => .error (.pallet .StorageOverflow)
                  | some b1 =>
                    .ok { s4 with
                      tokenIdToOwner := insertFn s4.tokenIdToOwner tid (buyer, bcnt),
                      ownerToNumberOfNFTs := insertFn s4.ownerToNumberOfNFTs buyer b1,
                      ownerToTokenIds := insert2 s4.ownerToTokenIds buyer bcnt tid }

/-- Substrate dispatch of one extrinsic: on error all storage writes are
discarded and only the error is reported. -/
def runExtrinsic (f : MarketState → Except DispatchErr MarketState) (s : MarketState) :
    MarketState × Option DispatchErr :=
  match f s with
  | .ok s2 => (s2, none)
  | .error e => (s, some e)

/-- State after dispatching: the new state on success, the old one on error. -/
def commit (r : Except DispatchErr MarketState) (s : MarketState) : MarketState :=
  match r with
  | .ok s2 => s2
  | .error _ => s

/-- Genesis: every storage item empty; balances of the external ledger are a
parameter. -/
def genesisState (bal : AccountId → Nat) : MarketState :=
  { nextTokenId := none
    tokenIdToOwner := fun _ => none
    numberOfSellOrders := none
    sellOrders := fun _ => none
    isTokenOnSale := fun _ => none
    ownerToNumberOfNFTs := fun _ => none
    ownerToTokenIds := fun _ _ => none
    balances := bal }

/-- States reachable from genesis through dispatched extrinsics. -/
inductive Reachable : MarketState → Prop
  | genesis (bal : AccountId → Nat) : Reachable (genesisState bal)
  | stepMint (s : MarketState) (who : AccountId) :
      Reachable s → Reachable (commit (mint s who) s)
  | stepSell (s : MarketState) (who : AccountId) (tid : TokenID) (price : Nat) :
      Reachable s → Reachable (commit (sell s who tid price) s)
  | stepCancel (s : MarketState) (who : AccountId) (tid : TokenID) :
      Reachable s → Reachable (commit (cancel_order s who tid) s)
  | stepBuy (s : MarketState) (who : AccountId) (tid : TokenID) :
      Reachable s → Reachable (commit (buy s who tid) s)

/-- Number of live sell orders as the code reads it (`get().unwrap_or(0)`). -/
def orderCount (s : MarketState) : Nat := s.numberOfSellOrders.getD 0

/-- Order-book compactness: `SellOrders` occupies exactly positions
`0..order_count` with no gaps, and `IsTokenOnSale t = some i` exactly when the
order at `i` is for token `t`. -/
def OrderBookInv (s : MarketState) : Prop :=
  (∀ i, (s.sellOrders i).isSome ↔ i < orderCount s) ∧
  (∀ t i, s.isTokenOnSale t = some i ↔
    ∃ ord, s.sellOrders i = some ord ∧ ord.token_id = t)

/-- Ownership reverse-index invariant: every ownership record points at a slot
of the owner's token array that holds that token. -/
def OwnershipInv (s : MarketState) : Prop :=
  ∀ t o p, s.tokenIdToOwner t = some (o, p) → s.ownerToTokenIds o p = some t

/-- Initial balances used by the concrete traces below. -/
def bal100 : AccountId → Nat := fun _ => 100

/-- Trace states: account 0 mints tokens 0 and 1, lists token 0 at price 5,
then account 1 buys token 0. -/
def tState0 : MarketState := genesisState bal100

def tState1 : MarketState := commit (mint tState0 0) tState0

def tState2 : MarketState := commit (mint tState1 0) tState1

def tState3 : MarketState := commit (sell tState2 0 0 5) tState2

def tState4 : MarketState := commit (buy tState3 1 0) tState3

/-- A state whose pending token id already has an ownership record
(unreachable in normal operation; exercises the claimed defensive check). -/
def preMintedState : MarketState :=
  { genesisState (fun _ => 0) with
    nextTokenId := some 0
    tokenIdToOwner := fun t => if t = 0 then some (7, 3) else none }

/-- A state with `NumberOfSellOrders = Some(0)` but a stale order record at
position 0 (exercises the `order_count == 0` path of `destroy_sell_order`). -/
def staleOrderState : MarketState :=
  { genesisState (fun _ => 0) with
    numberOfSellOrders := some 0
    sellOrders := fun i => if i = 0 then some ⟨0, 5⟩ else none
    isTokenOnSale := fun t => if t = 0 then some 0 else none }

/-- A state where the sale index reports position 0 but the order array has no
backing record there. -/
def missingRecordState : MarketState :=
  { genesisState (fun _ => 0) with
    numberOfSellOrders := some 3
    isTokenOnSale := fun t => if t = 0 then some 0 else none }

/-- A state where account 0's token count sits at `u64::MAX`. -/
def maxCountState : MarketState :=
  { genesisState (fun _ => 0) with
    ownerToNumberOfNFTs := fun a => if a = 0 then some (U64MOD - 1) else none }

/-- Account 0 owns token 0 (count 1, slot 0) and lists it at price 5; account 0
has balance 100, every other account balance 3. -/
def oneSaleState : MarketState :=
  { genesisState (fun a => if a = 0 then 100 else 3) with
    nextTokenId := some 1
    tokenIdToOwner := fun t => if t = 0 then some (0, 0) else none
    numberOfSellOrders := some 1
    sellOrders := fun i => if i = 0 then some ⟨0, 5⟩ else none
    isTokenOnSale := fun t => if t = 0 then some 0 else none
    ownerToNumberOfNFTs := fun a => if a = 0 then some 1 else none
    ownerToTokenIds := fun a p => if a = 0 ∧ p = 0 then some 0 else none }

/-- An order book of five orders (order `i` sells token `i` at price 10). -/
def book5 : MarketState :=
  { genesisState (fun _ => 0) with
    numberOfSellOrders := some 5
    sellOrders := fun i => if i < 5 then some ⟨i, 10⟩ else none
    isTokenOnSale := fun t => if t < 5 then some t else none }

/-- C1: the ownership reverse-index invariant is NOT preserved: when `buy`
relocates the seller's last token into the freed slot it never updates that
token's stored position in `TokenIdToOwner` (the order-book side of the same
swap-delete does update its reverse index).  After account 0 mints tokens 0
and 1, lists token 0 and account 1 buys it, token 1's record still claims
position 1 while the seller's array holds it at position 0. -/
theorem buy_breaks_ownership_backref :
    Reachable tState4 ∧
    tState4.tokenIdToOwner 1 = some (0, 1) ∧
    tState4.ownerToTokenIds 0 1 = none ∧
    tState4.ownerToTokenIds 0 0 = some 1 ∧
    ¬ OwnershipInv tState4 := by
  refine ⟨?_, rfl, rfl, rfl, fun h => ?_⟩
  · exact Reachable.stepBuy _ _ _ (Reachable.stepSell _ _ _ _
      (Reachable.stepMint _ _ (Reachable.stepMint _ _ (Reachable.genesis bal100))))
  · have h1 := h 1 0 1 rfl
    rw [show tState4.ownerToTokenIds 0 1 = none from rfl] at h1
    exact Option.noConfusion h1

/-- C2 counterexample: in a state whose pending token id 0 already has an
ownership record, `mint` does not fail with `TokenIdAlreadyMinted`; it
succeeds and overwrites the record. -/
theorem mint_overwrites_counterexample :
    preMintedState.nextTokenId = some 0 ∧
    (preMintedState.tokenIdToOwner 0).isSome = true ∧
    (mint preMintedState 5).map (fun s => s.tokenIdToOwner 0) = .ok (some (5, 0)) :=
  ⟨rfl, rfl, rfl⟩

/-- C2 amended: `mint` performs no defensive presence check at all — its only
failure is `StorageOverflow` on the id-counter bump, and whenever that bump
fits, `mint` succeeds and (over)writes the ownership record of the pending id
with the caller and the caller's current count. -/
theorem mint_never_token_already_minted (s : MarketState) (o : AccountId) :
    (∀ e, mint s o = .error e → e = .pallet .StorageOverflow) ∧
    (s.nextTokenId.getD 0 + 1 < U64MOD →
      ∃ s2, mint s o = .ok s2 ∧
        s2.tokenIdToOwner (s.nextTokenId.getD 0) =
          some (o, (s.ownerToNumberOfNFTs o).getD 0)) := by
  constructor
  · intro e he
    unfold mint at he
    cases hc : checkedAdd U64MOD (s.nextTokenId.getD 0) 1 with
    | none => rw [hc] at he; exact ((Except.error.injEq _ _).mp he).symm
    | some nxt => rw [hc] at he; exact Except.noConfusion he
  · intro hlt
    have hc : checkedAdd U64MOD (s.nextTokenId.getD 0) 1 = some (s.nextTokenId.getD 0 + 1) := by
      unfold checkedAdd
      rw [if_pos hlt]
    unfold mint
    rw [hc]
    exact ⟨_, rfl, by simp [insertFn]⟩

/-- Witness for C2: the amended statement evaluated at the pre-minted state. -/
theorem mint_never_token_already_minted_witness :
    ∃ s2, mint preMintedState 5 = .ok s2 ∧
      s2.tokenIdToOwner 0 = some (5, 0) :=
  (mint_never_token_already_minted preMintedState 5).2 (by decide)

/-- C3: with `order_count = 0`, `destroy_sell_order` never returns
`NoSellOrdersFound` (that variant is never constructed anywhere): the unchecked
`order_count - 1` underflows, after which the lookup at the wrapped index fails
with `SellOrderNotFound` (with overflow checks enabled the subtraction itself
would panic).  A missing backing record at the reported position itself is an
`unwrap` panic, not a clean `SellOrderNotFound`. -/
theorem destroy_empty_book_not_clean :
    destroy_sell_order staleOrderState 0 = .error (.pallet .SellOrderNotFound) ∧
    destroy_sell_order missingRecordState 0 = .error .runtimePanic :=
  ⟨rfl, rfl⟩

/-- C4: with the owner's count at `u64::MAX`, `mint` does not return
`StorageOverflow`: the count bump is an unchecked `+ 1` (unlike the
`checked_add` used for the id counter and for the buyer-side append in `buy`),
so the count wraps to 0 and the call succeeds. -/
theorem mint_count_overflow_unchecked :
    maxCountState.ownerToNumberOfNFTs 0 = some (U64MOD - 1) ∧
    (mint maxCountState 0).map (fun s => (s.ownerToNumberOfNFTs 0, s.nextTokenId)) =
      .ok (some 0, some 1) :=
  ⟨rfl, rfl⟩

/-- C5: `buy` is atomic on failure.  Any error leaves the dispatched state
unchanged (rollback semantics of `#[transactional]` dispatch); an on-sale,
owned token whose price exceeds the buyer's free balance makes `buy` fail with
`NotEnoughBalance` before any mutation; and a failing balance transfer aborts
the whole call with that error. -/
theorem buy_atomic_on_failure (s : MarketState) (buyer : AccountId) (tid : TokenID) :
    (∀ e, buy s buyer tid = .error e →
      runExtrinsic (fun st => buy st buyer tid) s = (s, some e)) ∧
    (∀ sell_id seller idx ord,
      s.isTokenOnSale tid = some sell_id →
      s.tokenIdToOwner tid = some (seller, idx) →
      s.sellOrders sell_id = some ord →
      s.balances buyer < ord.sell_price →
      buy s buyer tid = .error (.pallet .NotEnoughBalance)) ∧
    (∀ sell_id seller idx ord e,
      s.isTokenOnSale tid = some sell_id →
      s.tokenIdToOwner tid = some (seller, idx) →
      s.sellOrders sell_id = some ord →
      ¬ s.balances buyer < ord.sell_price →
      currencyTransfer s.balances buyer seller ord.sell_price = .error e →
      buy s buyer tid = .error e) := by
  refine ⟨?_, ?_, ?_⟩
  · intro e he
    simp [runExtrinsic, he]
  · intro sell_id seller idx ord h1 h2 h3 h4
    simp [buy, h1, h2, h3, h4]
  · intro sell_id seller idx ord e h1 h2 h3 h4 h5
    simp [buy, h1, h2, h3, h4, h5]

/-- Witness for C5: account 1 (balance 3) attempts to buy token 0 (price 5);
the call fails with `NotEnoughBalance` and the dispatched state is unchanged. -/
theorem buy_atomic_on_failure_witness :
    runExtrinsic (fun st => buy st 1 0) oneSaleState =
      (oneSaleState, some (.pallet .NotEnoughBalance)) := by
  have h := (buy_atomic_on_failure oneSaleState 1 0).2.1 0 0 0 ⟨0, 5⟩ rfl rfl rfl (by decide)
  exact (buy_atomic_on_failure oneSaleState 1 0).1 _ h

/-- C8: a successful `mint` by account `o` issues exactly the prior
`next_token_id`, records `o` as the owner at position equal to `o`'s prior
count, stores the token there in `o`'s array, and bumps `next_token_id` by
one. -/
theorem mint_round_trip (s : MarketState) (o : AccountId) (s2 : MarketState)
    (h : mint s o = .ok s2) :
    s2.tokenIdToOwner (s.nextTokenId.getD 0) =
      some (o, (s.ownerToNumberOfNFTs o).getD 0) ∧
    s2.ownerToTokenIds o ((s.ownerToNumberOfNFTs o).getD 0) =
      some (s.nextTokenId.getD 0) ∧
    s2.nextTokenId = some (s.nextTokenId.getD 0 + 1) := by
  unfold mint at h
  cases hc : checkedAdd U64MOD (s.nextTokenId.getD 0) 1 with
  | none => rw [hc] at h; exact Except.noConfusion h
  | some nxt =>
    rw [hc] at h
    have hv : nxt = s.nextTokenId.getD 0 + 1 := by
      unfold checkedAdd at hc
      by_cases hlt : s.nextTokenId.getD 0 + 1 < U64MOD
      · rw [if_pos hlt] at hc
        exact (Option.some.injEq _ _).mp hc.symm
      · rw [if_neg hlt] at hc
        exact Option.noConfusion hc
    injection h with h2
    subst h2
    subst hv
    refine ⟨by simp [insertFn], by simp [insert2], rfl⟩

/-- Witness for C8: minting from genesis issues token 0 to the caller at
position 0 and sets the counter to 1. -/
theorem mint_round_trip_witness :
    ∃ s2, mint (genesisState (fun _ => 0)) 0 = .ok s2 ∧
      s2.tokenIdToOwner 0 = some (0, 0) ∧
      s2.ownerToTokenIds 0 0 = some 0 ∧
      s2.nextTokenId = some 1 := by
  cases h : mint (genesisState (fun _ => 0)) 0 with
  | error e =>
    have hok : (mint (genesisState (fun _ => 0)) 0).isOk = true := rfl
    rw [h] at hok
    exact Bool.noConfusion hok
  | ok s2 =>
    obtain ⟨h1, h2, h3⟩ := mint_round_trip _ _ _ h
    exact ⟨s2, rfl, h1, h2, h3⟩

/-- Order-book compactness only depends on the three order-book fields. -/
theorem inv_of_fields_eq (s t : MarketState)
    (h1 : t.sellOrders = s.sellOrders) (h2 : t.isTokenOnSale = s.isTokenOnSale)
    (h3 : t.numberOfSellOrders = s.numberOfSellOrders) (hinv : OrderBookInv s) :
    OrderBookInv t := by
  unfold OrderBookInv orderCount
  rw [h1, h2, h3]
  exact hinv

/-- A successful `destroy_sell_order` touches only the order-book fields. -/
theorem destroy_frame (s : MarketState) (index : Nat) (s2 : MarketState)
    (h : destroy_sell_order s index = .ok s2) :
    s2.nextTokenId = s.nextTokenId ∧ s2.tokenIdToOwner = s.tokenIdToOwner ∧
    s2.ownerToNumberOfNFTs = s.ownerToNumberOfNFTs ∧
    s2.ownerToTokenIds = s.ownerToTokenIds ∧ s2.balances = s.balances := by
  unfold destroy_sell_order at h
  cases ho : s.sellOrders index with
  | none => rw [ho] at h; exact Except.noConfusion h
  | some ord =>
  simp only [ho] at h
  cases hc : s.numberOfSellOrders with
  | none => rw [hc] at h; exact Except.noConfusion h
  | some c =>
  simp only [hc] at h
  by_cases hil : index = wrapSub1 U128MOD c
  · rw [if_pos hil] at h
    injection h with h
    subst h
    exact ⟨rfl, rfl, rfl, rfl, rfl⟩
  · rw [if_neg hil] at h
    cases hlast : s.sellOrders (wrapSub1 U128MOD c) with
    | none => rw [hlast] at h; exact Except.noConfusion h
    | some lastOrd =>
    simp only [hlast] at h
    injection h with h
    subst h
    exact ⟨rfl, rfl, rfl, rfl, rfl⟩

/-- A successful `destroy_sell_order` clears the sale-index entry of the token
whose order sat at the destroyed position. -/
theorem destroy_clears_sale (s : MarketState) (index : Nat) (s2 : MarketState) (ord : Order)
    (ho : s.sellOrders index = some ord) (h : destroy_sell_order s index = .ok s2) :
    s2.isTokenOnSale ord.token_id = none := by
  unfold destroy_sell_order at h
  simp only [ho] at h
  cases hc : s.numberOfSellOrders with
  | none => rw [hc] at h; exact Except.noConfusion h
  | some c =>
  simp only [hc] at h
  by_cases hil : index = wrapSub1 U128MOD c
  · rw [if_pos hil] at h
    injection h with h
    subst h
    simp [removeFn]
  · rw [if_neg hil] at h
    cases hlast : s.sellOrders (wrapSub1 U128MOD c) with
    | none => rw [hlast] at h; exact Except.noConfusion h
    | some lastOrd =>
    simp only [hlast] at h
    injection h with h
    subst h
    simp [removeFn]

/-- Swap-delete preserves order-book compactness. -/
theorem destroy_inv (s : MarketState) (index : Nat) (s2 : MarketState)
    (hinv : OrderBookInv s) (h : destroy_sell_order s index = .ok s2) :
    OrderBookInv s2 := by
  obtain ⟨hcomp, hsale⟩ := hinv
  unfold destroy_sell_order at h
  cases ho : s.sellOrders index with
  | none => rw [ho] at h; exact Except.noConfusion h
  | some ord =>
  simp only [ho] at h
  cases hc : s.numberOfSellOrders with
  | none => rw [hc] at h; exact Except.noConfusion h
  | some c =>
  simp only [hc] at h
  have hidx : index < c := by
    have hx := (hcomp index).mp (by rw [ho]; rfl)
    simpa [orderCount, hc] using hx
  have hc0 : c ≠ 0 := by omega
  have hw : wrapSub1 U128MOD c = c - 1 := by
    unfold wrapSub1
    rw [if_neg hc0]
  rw [hw] at h
  have hcompc : ∀ i, (s.sellOrders i).isSome ↔ i < c := by
    intro i
    simpa [orderCount, hc] using hcomp i
  have hso : s.isTokenOnSale ord.token_id = some index :=
    (hsale ord.token_id index).mpr ⟨ord, ho, rfl⟩
  by_cases hil : index = c - 1
  · rw [if_pos hil] at h
    injection h with h
    subst h
    unfold OrderBookInv orderCount
    dsimp only
    constructor
    · intro i
      by_cases hi : i = c - 1
      · simp [removeFn, hi, orderCount]
      · simp only [removeFn, if_neg hi, orderCount, Option.getD_some]
        rw [hcompc i]
        omega
    · intro t i
      by_cases ht : t = ord.token_id
      · subst ht
        simp only [removeFn, if_pos rfl]
        constructor
        · intro hx
          exact Option.noConfusion hx
        · rintro ⟨o, hoi, hot⟩
          by_cases hi : i = c - 1
          · rw [if_pos hi] at hoi
            exact Option.noConfusion hoi
          · rw [if_neg hi] at hoi
            have hx := (hsale ord.token_id i).mpr ⟨o, hoi, hot⟩
            rw [hso] at hx
            have := Option.some.inj hx
            omega
      · simp only [removeFn, if_neg ht]
        constructor
        · intro hx
          obtain ⟨o, hoi, hot⟩ := (hsale t i).mp hx
          have hi : i ≠ c - 1 := by
            intro hi
            subst hi
            rw [← hil, ho] at hoi
            have := Option.some.inj hoi
            subst this
            exact ht hot.symm
          exact ⟨o, by rw [if_neg hi]; exact hoi, hot⟩
        · rintro ⟨o, hoi, hot⟩
          by_cases hi : i = c - 1
          · rw [if_pos hi] at hoi
            exact Option.noConfusion hoi
          · rw [if_neg hi] at hoi
            exact (hsale t i).mpr ⟨o, hoi, hot⟩
  · rw [if_neg hil] at h
    cases hlast : s.sellOrders (c - 1) with
    | none => rw [hlast] at h; exact Except.noConfusion h
    | some lastOrd =>
    simp only [hlast] at h
    injection h with h
    subst h
    unfold OrderBookInv orderCount
    dsimp only
    have hsl : s.isTokenOnSale lastOrd.token_id = some (c - 1) :=
      (hsale lastOrd.token_id (c - 1)).mpr ⟨lastOrd, hlast, rfl⟩
    have htne : ord.token_id ≠ lastOrd.token_id := by
      intro he
      rw [he, hsl] at hso
      have := Option.some.inj hso
      omega
  -- compactness of the swapped book
    constructor
    · intro i
      by_cases hi1 : i = c - 1
      · simp [removeFn, hi1, orderCount]
      · by_cases hi2 : i = index
        · simp only [removeFn, insertFn, if_neg hi1, if_pos hi2, orderCount, Option.getD_some,
            Option.isSome_some, true_iff]
          omega
        · simp only [removeFn, insertFn, if_neg hi1, if_neg hi2, orderCount, Option.getD_some]
          rw [hcompc i]
          omega
    · intro t i
      constructor
      · intro hx
        by_cases ht1 : t = ord.token_id
        · rw [ht1] at hx
          simp [removeFn] at hx
        · rw [show removeFn (insertFn s.isTokenOnSale lastOrd.token_id index) ord.token_id t =
              insertFn s.isTokenOnSale lastOrd.token_id index t from by
                unfold removeFn; rw [if_neg ht1]] at hx
          by_cases ht2 : t = lastOrd.token_id
          · rw [show insertFn s.isTokenOnSale lastOrd.token_id index t = some index from by
                unfold insertFn; rw [if_pos ht2]] at hx
            have hieq := Option.some.inj hx
            subst hieq
            refine ⟨lastOrd, ?_, ht2.symm⟩
            unfold removeFn insertFn
            rw [if_neg hil, if_pos rfl]
          · rw [show insertFn s.isTokenOnSale lastOrd.token_id index t = s.isTokenOnSale t from by
                unfold insertFn; rw [if_neg ht2]] at hx
            obtain ⟨o, hoi, hot⟩ := (hsale t i).mp hx
            have hi1 : i ≠ c - 1 := by
              intro hi
              rw [hi, hlast] at hoi
              have := Option.some.inj hoi
              subst this
              exact ht2 hot.symm
            have hi2 : i ≠ index := by
              intro hi
              rw [hi, ho] at hoi
              have := Option.some.inj hoi
              subst this
              exact ht1 hot.symm
            refine ⟨o, ?_, hot⟩
            unfold removeFn insertFn
            rw [if_neg hi1, if_neg hi2]
            exact hoi
      · rintro ⟨o, hoi, hot⟩
        have hi1 : i ≠ c - 1 := by
          intro hi
          rw [hi] at hoi
          simp [removeFn] at hoi
        rw [show removeFn (insertFn s.sellOrders index lastOrd) (c - 1) i =
            insertFn s.sellOrders index lastOrd i from by
              unfold removeFn; rw [if_neg hi1]] at hoi
        by_cases hi2 : i = index
        · rw [show insertFn s.sellOrders index lastOrd i = some lastOrd from by
              unfold insertFn; rw [if_pos hi2]] at hoi
          have := Option.some.inj hoi
          subst this
          subst hi2
          rw [← hot]
          unfold removeFn insertFn
          have hne2 : ¬ lastOrd.token_id = ord.token_id := fun hh => htne hh.symm
          rw [if_neg hne2, if_pos rfl]
        · rw [show insertFn s.sellOrders index lastOrd i = s.sellOrders i from by
              unfold insertFn; rw [if_neg hi2]] at hoi
          have hx := (hsale t i).mpr ⟨o, hoi, hot⟩
          have ht1 : t ≠ ord.token_id := by
            intro he
            rw [he, hso] at hx
            have := Option.some.inj hx
            omega
          have ht2 : t ≠ lastOrd.token_id := by
            intro he
            rw [he, hsl] at hx
            have := Option.some.inj hx
            omega
          unfold removeFn insertFn
          rw [if_neg ht1, if_neg ht2]
          exact hx

/-- Listing a token preserves order-book compactness. -/
theorem sell_commit_inv (s : MarketState) (who : AccountId) (tid : TokenID) (price : Nat)
    (hinv : OrderBookInv s) : OrderBookInv (commit (sell s who tid price) s) := by
  obtain ⟨hcomp, hsale⟩ := hinv
  unfold commit
  cases hs : sell s who tid price with
  | error e => exact ⟨hcomp, hsale⟩
  | ok s2 =>
  unfold sell at hs
  cases h1 : s.tokenIdToOwner tid with
  | none => rw [h1] at hs; exact Except.noConfusion hs
  | some ow =>
  obtain ⟨town, tpos⟩ := ow
  simp only [h1] at hs
  by_cases h2 : who = town
  · rw [if_pos h2] at hs
    by_cases h3 : (s.isTokenOnSale tid).isSome
    · rw [if_pos h3] at hs
      exact Except.noConfusion hs
    · rw [if_neg h3] at hs
      cases hca : checkedAdd U128MOD (s.numberOfSellOrders.getD 0) 1 with
      | none => rw [hca] at hs; exact Except.noConfusion hs
      | some c1 =>
      simp only [hca] at hs
      injection hs with hs
      subst hs
      have hc1 : c1 = s.numberOfSellOrders.getD 0 + 1 := by
        unfold checkedAdd at hca
        by_cases hlt : s.numberOfSellOrders.getD 0 + 1 < U128MOD
        · rw [if_pos hlt] at hca
          exact (Option.some.inj hca).symm
        · rw [if_neg hlt] at hca
          exact Option.noConfusion hca
      subst hc1
      have hcompc : ∀ i, (s.sellOrders i).isSome ↔ i < s.numberOfSellOrders.getD 0 :=
        fun i => by simpa [orderCount] using hcomp i
      have hnot : s.isTokenOnSale tid = none := Option.not_isSome_iff_eq_none.mp h3
      unfold OrderBookInv orderCount
      dsimp only
      constructor
      · intro i
        by_cases hi : i = s.numberOfSellOrders.getD 0
        · simp only [insertFn, if_pos hi, Option.isSome_some, true_iff, Option.getD_some]
          omega
        · simp only [insertFn, if_neg hi, Option.getD_some]
          rw [hcompc i]
          omega
      · intro t i
        by_cases ht : t = tid
        · subst ht
          simp only [insertFn, if_pos rfl]
          constructor
          · intro hx
            have hieq := Option.some.inj hx
            subst hieq
            exact ⟨⟨t, price⟩, by rw [if_pos rfl], rfl⟩
          · rintro ⟨o, hoi, hot⟩
            by_cases hi : i = s.numberOfSellOrders.getD 0
            · rw [hi]
              simp
            · rw [if_neg hi] at hoi
              have hx := (hsale t i).mpr ⟨o, hoi, hot⟩
              rw [hnot] at hx
              exact Option.noConfusion hx
        · simp only [insertFn, if_neg ht]
          constructor
          · intro hx
            obtain ⟨o, hoi, hot⟩ := (hsale t i).mp hx
            have hi : i ≠ s.numberOfSellOrders.getD 0 := by
              intro hi
              have hlt := (hcompc i).mp (by rw [hoi]; rfl)
              omega
            exact ⟨o, by rw [if_neg hi]; exact hoi, hot⟩
          · rintro ⟨o, hoi, hot⟩
            by_cases hi : i = s.numberOfSellOrders.getD 0
            · rw [if_pos hi] at hoi
              have := Option.some.inj hoi
              subst this
              exact absurd hot.symm ht
            · rw [if_neg hi] at hoi
              exact (hsale t i).mpr ⟨o, hoi, hot⟩
  · rw [if_neg h2] at hs
    exact Except.noConfusion hs

/-- Minting never touches the order book. -/
theorem mint_commit_inv (s : MarketState) (who : AccountId)
    (hinv : OrderBookInv s) : OrderBookInv (commit (mint s who) s) := by
  unfold commit
  cases hm : mint s who with
  | error e => exact hinv
  | ok s2 =>
  unfold mint at hm
  cases hca : checkedAdd U64MOD (s.nextTokenId.getD 0) 1 with
  | none => rw [hca] at hm; exact Except.noConfusion hm
  | some nx =>
  simp only [hca] at hm
  injection hm with hm
  subst hm
  exact inv_of_fields_eq s _ rfl rfl rfl hinv

/-- Cancelling an order preserves order-book compactness. -/
theorem cancel_commit_inv (s : MarketState) (who : AccountId) (tid : TokenID)
    (hinv : OrderBookInv s) : OrderBookInv (commit (cancel_order s who tid) s) := by
  unfold commit
  cases hm : cancel_order s who tid with
  | error e => exact hinv
  | ok s2 =>
  unfold cancel_order at hm
  cases h1 : s.tokenIdToOwner tid with
  | none => rw [h1] at hm; exact Except.noConfusion hm
  | some ow =>
  obtain ⟨town, tpos⟩ := ow
  simp only [h1] at hm
  by_cases h2 : who = town
  · rw [if_pos h2] at hm
    cases h3 : s.isTokenOnSale tid with
    | none =>
      simp only [h3] at hm
      exact Except.noConfusion hm
    | some idx =>
      simp only [h3] at hm
      exact destroy_inv s idx s2 hinv hm
  · rw [if_neg h2] at hm
    exact Except.noConfusion hm

/-- A successful seller-side relocation touches only `OwnerToTokenIds`. -/
theorem relocate_frame (s : MarketState) (a : AccountId) (idx last : Nat) (s2 : MarketState)
    (h : relocateSeller s a idx last = .ok s2) :
    s2.sellOrders = s.sellOrders ∧ s2.isTokenOnSale = s.isTokenOnSale ∧
    s2.numberOfSellOrders = s.numberOfSellOrders := by
  unfold relocateSeller at h
  by_cases hi : idx = last
  · rw [if_pos hi] at h
    injection h with h
    subst h
    exact ⟨rfl, rfl, rfl⟩
  · rw [if_neg hi] at h
    cases hl : s.ownerToTokenIds a last with
    | none => rw [hl] at h; exact Except.noConfusion h
    | some v =>
      simp only [hl] at h
      injection h with h
      subst h
      exact ⟨rfl, rfl, rfl⟩

/-- Buying preserves order-book compactness. -/
theorem buy_commit_inv (s : MarketState) (who : AccountId) (tid : TokenID)
    (hinv : OrderBookInv s) : OrderBookInv (commit (buy s who tid) s) := by
  unfold commit
  cases hb : buy s who tid with
  | error e => exact hinv
  | ok sf =>
  unfold buy at hb
  cases h1 : s.isTokenOnSale tid with
  | none => rw [h1] at hb; exact Except.noConfusion hb
  | some sell_id =>
  simp only [h1] at hb
  cases h2 : s.tokenIdToOwner tid with
  | none => rw [h2] at hb; exact Except.noConfusion hb
  | some ow =>
  obtain ⟨seller, idx⟩ := ow
  simp only [h2] at hb
  cases h3 : s.sellOrders sell_id with
  | none => rw [h3] at hb; exact Except.noConfusion hb
  | some ord =>
  simp only [h3] at hb
  by_cases h4 : s.balances who < ord.sell_price
  · rw [if_pos h4] at hb
    exact Except.noConfusion hb
  · rw [if_neg h4] at hb
    cases h5 : currencyTransfer s.balances who seller ord.sell_price with
    | error e =>
      simp only [h5] at hb
      exact Except.noConfusion hb
    | ok bal2 =>
    simp only [h5] at hb
    cases h6 : destroy_sell_order { s with balances := bal2 } sell_id with
    | error e =>
      simp only [h6] at hb
      exact Except.noConfusion hb
    | ok s1 =>
    simp only [h6] at hb
    have hinv1 : OrderBookInv s1 :=
      destroy_inv { s with balances := bal2 } sell_id s1
        (inv_of_fields_eq s { s with balances := bal2 } rfl rfl rfl hinv) h6
    cases h7 : s1.ownerToNumberOfNFTs seller with
    | none =>
      simp only [h7] at hb
      exact Except.noConfusion hb
    | some scnt =>
    simp only [h7] at hb
    cases h8 : relocateSeller
        { s1 with ownerToNumberOfNFTs :=
            insertFn s1.ownerToNumberOfNFTs seller (wrapSub1 U64MOD scnt) }
        seller idx (wrapSub1 U64MOD scnt) with
    | error e =>
      simp only [h8] at hb
      exact Except.noConfusion hb
    | ok s3 =>
    simp only [h8] at hb
    obtain ⟨hr1, hr2, hr3⟩ := relocate_frame _ _ _ _ _ h8
    cases h9 : checkedAdd U64MOD ((s3.ownerToNumberOfNFTs who).getD 0) 1 with
    | none =>
      simp only [h9] at hb
      exact Except.noConfusion hb
    | some b1 =>
    simp only [h9] at hb
    injection hb with hb
    subst hb
    exact inv_of_fields_eq s1 _ hr1 hr2 hr3 hinv1

/-- Every reachable state satisfies order-book compactness. -/
theorem reachableInv (s : MarketState) (h : Reachable s) : OrderBookInv s := by
  induction h with
  | genesis bal =>
    constructor
    · intro i
      simp [genesisState, orderCount]
    · intro t i
      simp [genesisState]
  | stepMint s who hr ih => exact mint_commit_inv s who ih
  | stepSell s who tid price hr ih => exact sell_commit_inv s who tid price ih
  | stepCancel s who tid hr ih => exact cancel_commit_inv s who tid ih
  | stepBuy s who tid hr ih => exact buy_commit_inv s who tid ih

/-- C6: every reachable state satisfies the order-book compactness invariant
(`SellOrders` occupies exactly `0..order_count` with no gaps, and
`IsTokenOnSale t = i` exactly when `SellOrders i` is for `t`), and dispatching
any of the four operations from such a state preserves it. -/
theorem orderbook_inv_reachable (s : MarketState) (h : Reachable s) :
    OrderBookInv s ∧
    (∀ who, OrderBookInv (commit (mint s who) s)) ∧
    (∀ who tid price, OrderBookInv (commit (sell s who tid price) s)) ∧
    (∀ who tid, OrderBookInv (commit (cancel_order s who tid) s)) ∧
    (∀ who tid, OrderBookInv (commit (buy s who tid) s)) := by
  have hinv := reachableInv s h
  exact ⟨hinv, fun who => mint_commit_inv s who hinv,
    fun who tid price => sell_commit_inv s who tid price hinv,
    fun who tid => cancel_commit_inv s who tid hinv,
    fun who tid => buy_commit_inv s who tid hinv⟩

/-- Witness for C6 at the reachable state after two mints and one listing. -/
theorem orderbook_inv_reachable_witness :
    OrderBookInv tState3 ∧ OrderBookInv (commit (buy tState3 1 0) tState3) := by
  have h := orderbook_inv_reachable tState3 (Reachable.stepSell _ _ _ _
    (Reachable.stepMint _ _ (Reachable.stepMint _ _ (Reachable.genesis bal100))))
  exact ⟨h.1, h.2.2.2.2 1 0⟩

/-- C7: from any state with a compact order book of size 5, delisting the
order at position 1 relocates the order previously at position 4 into
position 1, repoints the relocated order's sale-index entry to 1, clears the
deleted order's sale-index entry, and leaves the count at 4. -/
theorem destroy_swap_delete_size5 (s : MarketState)
    (hinv : OrderBookInv s) (hc : s.numberOfSellOrders = some 5) :
    ∃ s2 o1 o4,
      s.sellOrders 1 = some o1 ∧ s.sellOrders 4 = some o4 ∧
      destroy_sell_order s 1 = .ok s2 ∧
      s2.sellOrders 1 = some o4 ∧
      s2.isTokenOnSale o4.token_id = some 1 ∧
      s2.isTokenOnSale o1.token_id = none ∧
      s2.numberOfSellOrders = some 4 := by
  obtain ⟨hcomp, hsale⟩ := hinv
  have h1s : (s.sellOrders 1).isSome := (hcomp 1).mpr (by simp [orderCount, hc])
  have h4s : (s.sellOrders 4).isSome := (hcomp 4).mpr (by simp [orderCount, hc])
  obtain ⟨o1, ho1⟩ := Option.isSome_iff_exists.mp h1s
  obtain ⟨o4, ho4⟩ := Option.isSome_iff_exists.mp h4s
  have hs1 : s.isTokenOnSale o1.token_id = some 1 := (hsale _ _).mpr ⟨o1, ho1, rfl⟩
  have hs4 : s.isTokenOnSale o4.token_id = some 4 := (hsale _ _).mpr ⟨o4, ho4, rfl⟩
  have hne : o4.token_id ≠ o1.token_id := by
    intro he
    rw [he, hs1] at hs4
    exact absurd (Option.some.inj hs4) (by omega)
  have hdes : destroy_sell_order s 1 = .ok
      { s with
        sellOrders := removeFn (insertFn s.sellOrders 1 o4) 4,
        isTokenOnSale := removeFn (insertFn s.isTokenOnSale o4.token_id 1) o1.token_id,
        numberOfSellOrders := some 4 } := by
    unfold destroy_sell_order
    simp only [ho1, hc]
    rw [show wrapSub1 U128MOD 5 = 4 from rfl]
    rw [if_neg (by omega : ¬ (1 : Nat) = 4)]
    simp only [ho4]
  refine ⟨_, o1, o4, ho1, ho4, hdes, ?_, ?_, ?_, rfl⟩
  · show removeFn (insertFn s.sellOrders 1 o4) 4 1 = some o4
    unfold removeFn insertFn
    rw [if_neg (by omega : ¬ (1 : Nat) = 4), if_pos rfl]
  · show removeFn (insertFn s.isTokenOnSale o4.token_id 1) o1.token_id o4.token_id = some 1
    unfold removeFn insertFn
    rw [if_neg hne, if_pos rfl]
  · show removeFn (insertFn s.isTokenOnSale o4.token_id 1) o1.token_id o1.token_id = none
    unfold removeFn
    rw [if_pos rfl]

/-- Witness for C7 on the concrete five-order book. -/
theorem destroy_swap_delete_size5_witness :
    ∃ s2 o1 o4,
      book5.sellOrders 1 = some o1 ∧ book5.sellOrders 4 = some o4 ∧
      destroy_sell_order book5 1 = .ok s2 ∧
      s2.sellOrders 1 = some o4 ∧
      s2.isTokenOnSale o4.token_id = some 1 ∧
      s2.isTokenOnSale o1.token_id = none ∧
      s2.numberOfSellOrders = some 4 := by
  refine destroy_swap_delete_size5 book5 ⟨?_, ?_⟩ rfl
  · intro i
    by_cases hi : i < 5 <;> simp [book5, genesisState, orderCount, hi]
  · intro t i
    simp only [book5, genesisState]
    by_cases ht : t < 5 <;> by_cases hi : i < 5 <;> simp [ht, hi]
    · exact eq_comm
    · exact fun hh => hi (hh ▸ ht)
    · exact fun hh => ht (hh ▸ hi)

/-- C9: from a reachable state, a successful `cancel_order` followed by a
second `cancel_order` by the same owner for the same token fails with
`TokenNotOnSale`, and the dispatched state after the second call is exactly
the state after the first. -/
theorem cancel_idempotent (s s1 : MarketState) (who : AccountId) (tid : TokenID)
    (hR : Reachable s) (h : cancel_order s who tid = .ok s1) :
    cancel_order s1 who tid = .error (.pallet .TokenNotOnSale) ∧
    runExtrinsic (fun st => cancel_order st who tid) s1 =
      (s1, some (.pallet .TokenNotOnSale)) := by
  obtain ⟨hcomp, hsale⟩ := reachableInv s hR
  unfold cancel_order at h
  cases h1 : s.tokenIdToOwner tid with
  | none => rw [h1] at h; exact Except.noConfusion h
  | some ow =>
  obtain ⟨town, tpos⟩ := ow
  simp only [h1] at h
  by_cases h2 : who = town
  · rw [if_pos h2] at h
    cases h3 : s.isTokenOnSale tid with
    | none =>
      simp only [h3] at h
      exact Except.noConfusion h
    | some idx =>
      simp only [h3] at h
      obtain ⟨ord, hord, htid⟩ := (hsale tid idx).mp h3
      obtain ⟨_, hf2, _, _, _⟩ := destroy_frame s idx s1 h
      have hclear : s1.isTokenOnSale tid = none := by
        have hcl := destroy_clears_sale s idx s1 ord hord h
        rwa [htid] at hcl
      have hsecond : cancel_order s1 who tid = .error (.pallet .TokenNotOnSale) := by
        unfold cancel_order
        rw [hf2]
        simp only [h1, if_pos h2, hclear]
      refine ⟨hsecond, ?_⟩
      unfold runExtrinsic
      simp only [hsecond]
  · rw [if_neg h2] at h
    exact Except.noConfusion h

/-- Witness for C9: cancelling token 0 twice from the reachable trace state
with one listing. -/
theorem cancel_idempotent_witness :
    ∃ s1, cancel_order tState3 0 0 = .ok s1 ∧
      cancel_order s1 0 0 = .error (.pallet .TokenNotOnSale) := by
  cases h : cancel_order tState3 0 0 with
  | error e =>
    have hok : (cancel_order tState3 0 0).isOk = true := rfl
    rw [h] at hok
    exact Bool.noConfusion hok
  | ok s1 =>
    have hR : Reachable tState3 := Reachable.stepSell _ _ _ _
      (Reachable.stepMint _ _ (Reachable.stepMint _ _ (Reachable.genesis bal100)))
    exact ⟨s1, rfl, (cancel_idempotent tState3 s1 0 0 hR h).1⟩

/-- C10: `buy` has no seller-distinct-from-caller check.  In a consistent
state where token `tid` is listed at `price` and its owner is the caller with
free balance at least `price`, the owner's own `buy` succeeds (it never fails
`NotTokenOwner`): the order and its sale-index entry are removed, the caller
stays recorded as the token's owner (now at the last position of its array)
and no balance moves. -/
theorem buy_self_purchase (s : MarketState) (caller : AccountId) (tid : TokenID)
    (sell_id c idx n price : Nat)
    (h1 : s.isTokenOnSale tid = some sell_id)
    (h2 : s.sellOrders sell_id = some ⟨tid, price⟩)
    (h3 : s.tokenIdToOwner tid = some (caller, idx))
    (h4 : s.numberOfSellOrders = some c)
    (h5 : sell_id < c)
    (h6 : sell_id ≠ c - 1 → (s.sellOrders (c - 1)).isSome)
    (h7 : s.ownerToNumberOfNFTs caller = some n)
    (h8 : idx < n) (h9 : n < U64MOD)
    (h10 : idx ≠ n - 1 → (s.ownerToTokenIds caller (n - 1)).isSome)
    (h11 : price ≤ s.balances caller) :
    ∃ s2, buy s caller tid = .ok s2 ∧
      s2.isTokenOnSale tid = none ∧
      s2.numberOfSellOrders = some (c - 1) ∧
      s2.tokenIdToOwner tid = some (caller, n - 1) ∧
      s2.ownerToNumberOfNFTs caller = some n ∧
      s2.balances = s.balances := by
  have htr : currencyTransfer s.balances caller caller price = .ok s.balances := by
    unfold currencyTransfer
    rw [if_pos (Or.inl rfl)]
  have hc0 : c ≠ 0 := by omega
  have hwc : wrapSub1 U128MOD c = c - 1 := by
    unfold wrapSub1
    rw [if_neg hc0]
  have hn0 : n ≠ 0 := by omega
  have hwn : wrapSub1 U64MOD n = n - 1 := by
    unfold wrapSub1
    rw [if_neg hn0]
  have hdes : ∃ s1, destroy_sell_order s sell_id = .ok s1 ∧
      s1.isTokenOnSale tid = none ∧ s1.numberOfSellOrders = some (c - 1) ∧
      s1.tokenIdToOwner = s.tokenIdToOwner ∧
      s1.ownerToNumberOfNFTs = s.ownerToNumberOfNFTs ∧
      s1.ownerToTokenIds = s.ownerToTokenIds ∧ s1.balances = s.balances := by
    unfold destroy_sell_order
    simp only [h2, h4, hwc]
    by_cases hse : sell_id = c - 1
    · rw [if_pos hse]
      refine ⟨_, rfl, ?_, rfl, rfl, rfl, rfl, rfl⟩
      show removeFn s.isTokenOnSale (Order.mk tid price).token_id tid = none
      unfold removeFn
      rw [if_pos rfl]
    · rw [if_neg hse]
      obtain ⟨lastOrd, hlast⟩ := Option.isSome_iff_exists.mp (h6 hse)
      simp only [hlast]
      refine ⟨_, rfl, ?_, rfl, rfl, rfl, rfl, rfl⟩
      show removeFn (insertFn s.isTokenOnSale lastOrd.token_id sell_id)
        (Order.mk tid price).token_id tid = none
      unfold removeFn
      rw [if_pos rfl]
  obtain ⟨s1, hdes1, hs1a, hs1b, hs1c, hs1d, hs1e, hs1f⟩ := hdes
  have hrel : ∃ s3, relocateSeller
      { s1 with ownerToNumberOfNFTs := insertFn s1.ownerToNumberOfNFTs caller (n - 1) }
      caller idx (n - 1) = .ok s3 ∧
      s3.isTokenOnSale = s1.isTokenOnSale ∧
      s3.numberOfSellOrders = s1.numberOfSellOrders ∧
      s3.tokenIdToOwner = s1.tokenIdToOwner ∧
      s3.ownerToNumberOfNFTs = insertFn s1.ownerToNumberOfNFTs caller (n - 1) ∧
      s3.balances = s1.balances := by
    unfold relocateSeller
    by_cases hie : idx = n - 1
    · rw [if_pos hie]
      exact ⟨_, rfl, rfl, rfl, rfl, rfl, rfl⟩
    · rw [if_neg hie]
      obtain ⟨l, hl⟩ := Option.isSome_iff_exists.mp (h10 hie)
      have hlx : s1.ownerToTokenIds caller (n - 1) = some l := by
        rw [hs1e]
        exact hl
      simp only [hlx]
      exact ⟨_, rfl, rfl, rfl, rfl, rfl, rfl⟩
  obtain ⟨s3, hrel1, hrel2, hrel3, hrel4, hrel5, hrel6⟩ := hrel
  have hcnt1 : s1.ownerToNumberOfNFTs caller = some n := by
    rw [hs1d]
    exact h7
  have hbcnt : s3.ownerToNumberOfNFTs caller = some (n - 1) := by
    rw [hrel5]
    unfold insertFn
    rw [if_pos rfl]
  have hca : checkedAdd U64MOD (n - 1) 1 = some n := by
    unfold checkedAdd
    rw [if_pos (by omega)]
    congr 1
    omega
  unfold buy
  simp only [h1, h3, h2]
  rw [if_neg (by simpa using Nat.not_lt.mpr h11)]
  simp only [htr]
  have hsame : ({ s with balances := s.balances } : MarketState) = s := rfl
  rw [hsame, hdes1]
  simp only [hcnt1, hwn, hrel1, hbcnt, Option.getD_some, hca]
  refine ⟨_, rfl, ?_, ?_, ?_, ?_, ?_⟩
  · show s3.isTokenOnSale tid = none
    rw [hrel2]
    exact hs1a
  · show s3.numberOfSellOrders = some (c - 1)
    rw [hrel3]
    exact hs1b
  · show insertFn s3.tokenIdToOwner tid (caller, n - 1) tid = some (caller, n - 1)
    unfold insertFn
    rw [if_pos rfl]
  · show insertFn s3.ownerToNumberOfNFTs caller n caller = some n
    unfold insertFn
    rw [if_pos rfl]
  · show s3.balances = s.balances
    rw [hrel6]
    exact hs1f

/-- Witness for C10: account 0 buys its own listed token 0 at price 5. -/
theorem buy_self_purchase_witness :
    ∃ s2, buy oneSaleState 0 0 = .ok s2 ∧
      s2.isTokenOnSale 0 = none ∧ s2.tokenIdToOwner 0 = some (0, 0) ∧
      s2.balances = oneSaleState.balances := by
  obtain ⟨s2, hb, ha, _, hc, _, hf⟩ :=
    buy_self_purchase oneSaleState 0 0 0 1 0 1 5 rfl rfl rfl rfl
      (by decide) (fun hh => absurd rfl hh) rfl (by decide) (by decide)
      (fun hh => absurd rfl hh) (by decide)
  exact ⟨s2, hb, ha, hc, hf⟩
